import Mathlib

/-!
Verification of the `tiktok_edits` video-editing pipeline.

This file gives a shallow embedding of the numeric core of the repository:
the beat detector (`src/video_making/beat_detector.py`), the audio segment
selector (`src/tools/audio_segment_selector.py`), the clip classifier
(`src/tools/clip_classifier.py`), the plan builder
(`src/video_making/orchestrator.py`) and the executor's duration
reconciliation (`src/agents/executor.py`).

Conventions of the embedding:
* Python floats are modelled as rationals (`ℚ`); the claims under study are
  about exact-arithmetic behaviour, not IEEE rounding.
* Audio decoding is abstracted: functions receive the list of samples
  (or of per-chunk/per-window RMS energies) that the Python code computes
  from the file.  Everything downstream of that list is translated
  statement-for-statement.
* `numpy.sqrt` appears only inside the adaptive threshold
  `mean + 0.5*std` and the per-segment RMS.  For the threshold we use the
  exact algebraic characterisation `e > mean ∧ (e - mean)^2 > var/4`
  (proved equivalent to `e > mean + sqrt var / 2` below); for segment RMS
  the square root is passed as an explicit function parameter `sq`.
-/

/-- Python's `sum(xs)/len(xs)` (`np.mean`); division by zero yields 0 in ℚ,
matching our use sites which guard for nonempty lists exactly as the code
does. -/
def meanQ (xs : List ℚ) : ℚ := xs.sum / (xs.length : ℚ)

/-- `np.std(xs)^2`: the mean squared deviation from the mean. -/
def varQ (xs : List ℚ) : ℚ :=
  (xs.map (fun e => (e - meanQ xs) ^ 2)).sum / (xs.length : ℚ)

/-- Mean square of a sample list (the quantity under the RMS square root). -/
def msQ (xs : List ℚ) : ℚ := (xs.map (fun x => x ^ 2)).sum / (xs.length : ℚ)

/-- Python's `max(xs)` for a nonempty list (0 on `[]`, which the code never
passes). -/
def maxQ : List ℚ → ℚ
  | [] => 0
  | x :: xs => xs.foldl max x

/-- One step of the `np.argmax` scan: state is
(best index, best value, current index). -/
def argmaxStep (st : ℕ × ℚ × ℕ) (v : ℚ) : ℕ × ℚ × ℕ :=
  if st.2.1 < v then (st.2.2, v, st.2.2 + 1) else (st.1, st.2.1, st.2.2 + 1)

/-- `np.argmax`: index of the first occurrence of the maximum value. -/
def argmaxIdx (xs : List ℚ) : ℕ := (xs.foldl argmaxStep (0, xs.headD 0, 0)).1

/-- `np.arange 0 stop step` for positive `step`: the values
`0, step, 2*step, …` strictly below `stop`. -/
def arangeQ (stop step : ℚ) : List ℚ :=
  (List.range ⌈stop / step⌉.toNat).map (fun i : ℕ => (i : ℚ) * step)

/-! ## Clip classifier (`src/tools/clip_classifier.py`)

`classify_clip_emotion` samples per-frame optical-flow motion scores,
averages them and maps the average through fixed thresholds. -/

/-- The threshold mapping of `classify_clip_emotion` (lines 58-82 of
`clip_classifier.py`) applied to the average motion score of the sampled
frames.  An empty score list is the early `calm / 0.5` return. -/
def classifyClipEmotion (motionScores : List ℚ) : String × ℚ :=
  if motionScores = [] then ("calm", 1/2)
  else
    let m := meanQ motionScores
    if 2 < m then ("rage", min 1 (m / 4))
    else if 1 < m then ("epic", min (9/10) (m / 3))
    else if 1/2 < m then ("calm", m / 2)
    else ("sad", m)

/-! ## Segment selector (`src/tools/audio_segment_selector.py`) -/

/-- Result record of `find_best_segment`. -/
structure SegResult where
  startTime : ℚ
  endTime : ℚ
  duration : ℚ
  calmEnd : Option ℚ
deriving Repr, DecidableEq

/-- The `except` fallback of `find_best_segment` (lines 148-154):
`{start_time: 0, end_time: min(target_duration, 30), duration: min(target_duration, 30),
calm_end: target_duration * 0.6}`. -/
def findBestSegmentFallback (targetDuration : ℚ) : SegResult :=
  { startTime := 0
    endTime := min targetDuration 30
    duration := min targetDuration 30
    calmEnd := some (targetDuration * (3/5)) }

/-! ## Plan builder (`src/video_making/orchestrator.py`) -/

/-- `create_editing_plan` beat filtering (lines 240-242): keep full-track
beats with `start ≤ b ≤ end`, then shift into segment-local coordinates. -/
def segmentLocalBeats (beatTimesFull : List ℚ) (segStart segEnd : ℚ) : List ℚ :=
  (beatTimesFull.filter (fun b => decide (segStart ≤ b ∧ b ≤ segEnd))).map
    (fun b => b - segStart)

/-- Modelled from the spec: the fallback grid the specification describes
for `create_editing_plan` step (c) — "if fewer than 2 beats remain,
synthesize a fallback grid at 0.5 s spacing" across the segment.  No such
grid exists in `orchestrator.py`; this definition follows the spec's words
so the code's actual behaviour can be compared against it. -/
def specFallbackGrid (segDuration : ℚ) : List ℚ := arangeQ segDuration (1/2)

/-- The orchestrator's clip-type rule for one beat interval
(lines 281-293): when the pattern has no calm section (`calm_end_relative`
is `None`) the literal substring test `"rage" in pattern` picks the branch;
otherwise position relative to the calm/rage transition decides. -/
def clipTypeFor (hasRage : Bool) (calmEndRel : Option ℚ)
    (beatStart intensity : ℚ) : String :=
  match calmEndRel with
  | none =>
    if hasRage then (if 1/2 < intensity then "rage" else "mixed")
    else (if intensity < 1/2 then "calm" else "mixed")
  | some ce =>
    if beatStart < ce then (if intensity < 7/10 then "calm" else "mixed")
    else (if 3/10 < intensity then "rage" else "mixed")

/-- One beat assignment of the plan (effects omitted: they carry no data the
claims depend on). -/
structure BeatAssignment where
  beatIdx : ℕ
  beatTime : ℚ
  clipType : String
  intensity : ℚ
deriving Repr, DecidableEq

/-- The `beat_assignments` loop of `create_editing_plan` (lines 277-310):
`for i in range(len(beat_times) - 1)`, with
`intensity = intensities[i] if i < len(intensities) else 0.5`. -/
def mkBeatAssignments (hasRage : Bool) (calmEndRel : Option ℚ)
    (beatTimes intensities : List ℚ) : List BeatAssignment :=
  (List.range (beatTimes.length - 1)).map (fun i =>
    let intensity := intensities.getD i (1/2)
    { beatIdx := i
      beatTime := beatTimes.getD i 0
      clipType := clipTypeFor hasRage calmEndRel (beatTimes.getD i 0) intensity
      intensity := intensity })

/-- The value stored under the `"intensity"` key of the returned plan.  The
variable `intensity` is assigned the selected level (`select_editing_intensity`,
line 225, a string) and then reassigned inside the assignment loop
(line 279) to the interval's numeric intensity; the plan dict (line 325) is
built after the loop, so it holds whatever the loop left behind. -/
def planIntensityField (level : String) (intensities beatTimes : List ℚ) :
    String ⊕ ℚ :=
  (List.range (beatTimes.length - 1)).foldl
    (fun _ i => Sum.inr (intensities.getD i (1/2)))
    (Sum.inl level)

/-! ## Beat detector (`src/video_making/beat_detector.py`)

`detect_beats` slices the track into 50 ms chunks, computes each chunk's
RMS energy, and selects chunks that are above an adaptive threshold
`mean + 0.5*std` and have no strictly greater energy within
`int(min_interval_s / 0.05)` chunks on either side (the right end of the
scan, `min(len, i + W)`, is exclusive). -/

/-- The 50 ms chunk duration. -/
def chunkDur : ℚ := 1/20

/-- `energies[i] > mean + 0.5*std`, stated without the square root:
for `var ≥ 0` this is equivalent to `mean < e ∧ var/4 < (e-mean)^2`
(see `aboveThreshold_iff_sqrt`). -/
def aboveThreshold (es : List ℚ) (e : ℚ) : Bool :=
  decide (meanQ es < e) && decide (varQ es / 4 < (e - meanQ es) ^ 2)

/-- `min_interval_chunks = int(min_interval_s / chunk_duration)`. -/
def minIntervalChunks (minInterval : ℚ) : ℕ := ⌊minInterval / chunkDur⌋.toNat

/-- Energy of chunk `i` (out-of-range reads do not occur in the code's
loops; `getD` gives them a harmless default). -/
def energyAt (es : List ℚ) (i : ℕ) : ℚ := es.getD i 0

/-- The peak test of the detection loop (lines 60-73): above threshold and
no strictly greater energy at any `j ∈ [max 0 (i-w), min len (i+w))`,
`j ≠ i`. -/
def isPeak (es : List ℚ) (w i : ℕ) : Bool :=
  aboveThreshold es (energyAt es i) &&
  ((List.range (min es.length (i + w))).all fun j =>
    if i - w ≤ j ∧ j ≠ i then decide (energyAt es j ≤ energyAt es i) else true)

/-- `beat_chunks`: indices passing the peak test, in scan order. -/
def beatChunksOf (es : List ℚ) (minInterval : ℚ) : List ℕ :=
  (List.range es.length).filter (isPeak es (minIntervalChunks minInterval))

/-- `beat_times = [chunk_idx * chunk_duration for chunk_idx in beat_chunks]`. -/
def beatTimesOf (es : List ℚ) (minInterval : ℚ) : List ℚ :=
  (beatChunksOf es minInterval).map (fun c : ℕ => (c : ℚ) * chunkDur)

/-- `np.diff`. -/
def diffsQ : List ℚ → List ℚ
  | a :: b :: rest => (b - a) :: diffsQ (b :: rest)
  | _ => []

/-- Insertion of one element into a sorted list (helper for `sortQ`). -/
def insertSorted (x : ℚ) : List ℚ → List ℚ
  | [] => [x]
  | y :: ys => if x ≤ y then x :: y :: ys else y :: insertSorted x ys

/-- Sorting rationals ascending (the sorted output is unique, so this
matches whatever sort `np.median` performs internally). -/
def sortQ (xs : List ℚ) : List ℚ := xs.foldr insertSorted []

/-- `np.median`: middle element of the sorted list, or the mean of the two
middle elements for even length. -/
def medianQ (xs : List ℚ) : ℚ :=
  let s := sortQ xs
  let n := s.length
  if n % 2 = 1 then s.getD (n / 2) 0
  else (s.getD (n / 2 - 1) 0 + s.getD (n / 2) 0) / 2

/-- The value `detect_beats` returns on the non-exception path
(lines 79-92): the detected beat times paired with the estimated tempo
(`60 / median interval` when more than one beat was found and the median
interval is positive, otherwise `120`). -/
def detectBeatsResult (es : List ℚ) (minInterval : ℚ) : List ℚ × ℚ :=
  let ts := beatTimesOf es minInterval
  if 1 < ts.length then
    let med := medianQ (diffsQ ts)
    (ts, if 0 < med then 60 / med else 120)
  else (ts, 120)

/-- The `except` fallback of `detect_beats` (lines 97-108): beats every
0.5 s across the track duration, tempo 120. -/
def detectBeatsFallback (duration : ℚ) : List ℚ × ℚ :=
  (arangeQ duration (1/2), 120)

/-! ## Theorems -/

/-- C8: `classify_clip_emotion` maps the average motion score `m` to
emotion/intensity exactly by the fixed thresholds: `m > 2` gives rage with
`min 1 (m/4)`; `2 ≥ m > 1` gives epic with `min 0.9 (m/3)`; `1 ≥ m > 0.5`
gives calm with `m/2`; `m ≤ 0.5` gives sad with `m` unscaled; in particular
a static zero-motion clip yields `("sad", 0)`. -/
theorem classify_clip_threshold_map (scores : List ℚ) (h : scores ≠ []) :
    (2 < meanQ scores →
      classifyClipEmotion scores = ("rage", min 1 (meanQ scores / 4))) ∧
    (1 < meanQ scores → meanQ scores ≤ 2 →
      classifyClipEmotion scores = ("epic", min (9/10) (meanQ scores / 3))) ∧
    (1/2 < meanQ scores → meanQ scores ≤ 1 →
      classifyClipEmotion scores = ("calm", meanQ scores / 2)) ∧
    (meanQ scores ≤ 1/2 →
      classifyClipEmotion scores = ("sad", meanQ scores)) ∧
    ((∀ s ∈ scores, s = 0) → classifyClipEmotion scores = ("sad", 0)) := by
  have hzero : (∀ s ∈ scores, s = 0) → meanQ scores = 0 := by
    intro hz
    have : scores.sum = 0 := List.sum_eq_zero hz
    simp [meanQ, this]
  refine ⟨?_, ?_, ?_, ?_, ?_⟩
  case _ | _ | _ | _ =>
    intros
    simp only [classifyClipEmotion, if_neg h]
    split_ifs <;> first | rfl | linarith
  case _ =>
    intro hz
    have hm := hzero hz
    simp only [classifyClipEmotion, if_neg h, hm]
    norm_num

/-- Witness for C8 at a static zero-motion clip. -/
theorem classify_clip_threshold_map_witness :
    classifyClipEmotion [0, 0] = ("sad", 0) :=
  (classify_clip_threshold_map [0, 0] (by decide)).2.2.2.2 (by decide)

/-- C7 counterexample: at `target_duration = 50` the failure fallback of
`find_best_segment` returns the window `{0, 30}` but puts `calm_end` at
`50 * 0.6 = 30`, not at 60% of the returned window's duration (which would
be `18`). -/
theorem find_best_segment_fallback_cex :
    (findBestSegmentFallback 50).endTime = 30 ∧
    (findBestSegmentFallback 50).calmEnd = some 30 ∧
    (3/5 : ℚ) * ((findBestSegmentFallback 50).endTime -
      (findBestSegmentFallback 50).startTime) = 18 ∧
    (findBestSegmentFallback 50).calmEnd ≠
      some ((3/5 : ℚ) * ((findBestSegmentFallback 50).endTime -
        (findBestSegmentFallback 50).startTime)) := by
  refine ⟨?_, ?_, ?_, ?_⟩ <;> simp [findBestSegmentFallback] <;> norm_num

/-- C7 amended: on analysis failure `find_best_segment` returns the window
`{0, min(targetDuration, 30)}` with `calm_end = 0.6 * targetDuration`;
this equals 60% of the returned window's duration exactly when
`targetDuration ≤ 30`. -/
theorem find_best_segment_fallback_spec (t : ℚ) :
    (findBestSegmentFallback t).startTime = 0 ∧
    (findBestSegmentFallback t).endTime = min t 30 ∧
    (findBestSegmentFallback t).calmEnd = some (t * (3/5)) ∧
    (t ≤ 30 → (findBestSegmentFallback t).calmEnd =
      some ((3/5) * ((findBestSegmentFallback t).endTime -
        (findBestSegmentFallback t).startTime))) := by
  refine ⟨rfl, rfl, rfl, fun ht => ?_⟩
  simp only [findBestSegmentFallback, min_eq_left ht, Option.some.injEq]
  ring

/-- Witness for C7's amended claim at `targetDuration = 12`. -/
theorem find_best_segment_fallback_spec_witness :
    (findBestSegmentFallback 12).calmEnd =
      some ((3/5) * ((findBestSegmentFallback 12).endTime -
        (findBestSegmentFallback 12).startTime)) :=
  (find_best_segment_fallback_spec 12).2.2.2 (by norm_num)

/-- C4: the plan's `"intensity"` key does *not* hold the selected
low/medium/high level whenever the segment contains at least two beats:
the assignment loop reuses the variable `intensity`, so the plan stores the
last interval's numeric intensity.  Here the selected level is `"medium"`,
the beat times are `[0, 0.5, 1]` and the interval intensities
`[0.3, 0.8]`; the plan field ends up `0.8`. -/
theorem plan_intensity_field_clobbered :
    planIntensityField "medium" [3/10, 4/5] [0, 1/2, 1] = Sum.inr (4/5) ∧
    planIntensityField "medium" [3/10, 4/5] [0, 1/2, 1] ≠ Sum.inl "medium" ∧
    planIntensityField "medium" [3/10, 4/5] [] = Sum.inl "medium" := by
  refine ⟨by rfl, by decide, by rfl⟩

/-- C3 counterexample: with full-track beats `[0, 5]` and the audio segment
`[1, 3]`, fewer than 2 beats remain after filter+shift, yet
`create_editing_plan` keeps the (here empty) filtered list as `beat_times`
instead of the 0.5 s grid the spec describes. -/
theorem plan_beat_times_no_fallback_grid_cex :
    segmentLocalBeats [0, 5] 1 3 = [] ∧
    (segmentLocalBeats [0, 5] 1 3).length < 2 ∧
    specFallbackGrid (3 - 1) = [0, 1/2, 1, 3/2] ∧
    segmentLocalBeats [0, 5] 1 3 ≠ specFallbackGrid (3 - 1) := by
  have hgrid : specFallbackGrid (3 - 1) = [0, 1/2, 1, 3/2] := by
    have h4 : (⌈((3:ℚ) - 1) / (1/2)⌉).toNat = 4 := by
      have : (⌈((3:ℚ) - 1) / (1/2)⌉ : ℤ) = 4 := by norm_num
      rw [this]; rfl
    simp only [specFallbackGrid, arangeQ, h4, List.range_succ, List.range_zero,
      List.map_append, List.map_cons, List.map_nil, List.nil_append,
      List.cons_append]
    norm_num
  have hloc : segmentLocalBeats [0, 5] 1 3 = [] := by
    simp only [segmentLocalBeats, List.filter, decide_eq_true_eq]
    norm_num
  refine ⟨hloc, by rw [hloc]; decide, hgrid, by rw [hloc, hgrid]; decide⟩

/-- C3 amended: when fewer than 2 beats fall inside the selected segment,
`create_editing_plan` keeps the filtered-and-shifted list itself (no
fallback grid is synthesized) and consequently produces an empty
`beat_assignments` list. -/
theorem plan_few_beats_amended (full : List ℚ) (s e : ℚ)
    (hasRage : Bool) (ce : Option ℚ) (ints : List ℚ)
    (h : (segmentLocalBeats full s e).length < 2) :
    mkBeatAssignments hasRage ce (segmentLocalBeats full s e) ints = [] := by
  unfold mkBeatAssignments
  have h0 : (segmentLocalBeats full s e).length - 1 = 0 := by omega
  rw [h0]
  rfl

/-- Witness for C3's amended claim. -/
theorem plan_few_beats_amended_witness :
    mkBeatAssignments true none (segmentLocalBeats [0, 5] 1 3) [] = [] :=
  plan_few_beats_amended [0, 5] 1 3 true none [] (by decide)

/-- The mean squared deviation is non-negative. -/
theorem varQ_nonneg (xs : List ℚ) : 0 ≤ varQ xs := by
  unfold varQ
  apply div_nonneg
  · apply List.sum_nonneg
    intro x hx
    simp only [List.mem_map] at hx
    obtain ⟨e, _, rfl⟩ := hx
    positivity
  · positivity

/-- Faithfulness of the square-root-free threshold test: `aboveThreshold`
is exactly the code's `energy > mean + 0.5 * std` read over the reals. -/
theorem aboveThreshold_iff_sqrt (es : List ℚ) (e : ℚ) :
    aboveThreshold es e = true ↔
      ((meanQ es : ℝ) + Real.sqrt (varQ es) / 2 < (e : ℝ)) := by
  simp only [aboveThreshold, Bool.and_eq_true, decide_eq_true_eq]
  constructor
  · rintro ⟨h1, h2⟩
    have h1R : ((meanQ es : ℚ) : ℝ) < (e : ℝ) := by exact_mod_cast h1
    have h2R : ((varQ es : ℚ) : ℝ) / 4 < ((e : ℝ) - (meanQ es : ℚ)) ^ 2 := by
      exact_mod_cast h2
    have hsq : Real.sqrt (varQ es) < 2 * ((e : ℝ) - (meanQ es : ℚ)) := by
      rw [Real.sqrt_lt' (by linarith)]
      nlinarith
    linarith
  · intro h
    have h0 : (0:ℝ) ≤ Real.sqrt (varQ es) := Real.sqrt_nonneg _
    have h1R : ((meanQ es : ℚ) : ℝ) < (e : ℝ) := by linarith
    have hsq : Real.sqrt (varQ es) < 2 * ((e : ℝ) - (meanQ es : ℚ)) := by linarith
    have h2R : ((varQ es : ℚ) : ℝ) < (2 * ((e : ℝ) - (meanQ es : ℚ))) ^ 2 :=
      (Real.sqrt_lt' (by linarith)).mp hsq
    refine ⟨by exact_mod_cast h1R, ?_⟩
    have hq : ((varQ es : ℚ) : ℝ) / 4 < ((e : ℝ) - (meanQ es : ℚ)) ^ 2 := by
      nlinarith
    exact_mod_cast hq

/-- Inside a peak's scan window no chunk has strictly greater energy. -/
theorem isPeak_le (es : List ℚ) (w i j : ℕ) (hp : isPeak es w i = true)
    (hj : j < min es.length (i + w)) (hlo : i - w ≤ j) (hne : j ≠ i) :
    energyAt es j ≤ energyAt es i := by
  simp only [isPeak, Bool.and_eq_true, List.all_eq_true, List.mem_range] at hp
  have h := hp.2 j hj
  rw [if_pos ⟨hlo, hne⟩] at h
  exact of_decide_eq_true h

/-- Two accepted peaks closer together than the scan half-width have
exactly equal energies (each lies inside the other's scan window). -/
theorem close_peaks_eq_energy (es : List ℚ) (w c1 c2 : ℕ)
    (h1 : isPeak es w c1 = true) (h2 : isPeak es w c2 = true)
    (hc1 : c1 < es.length) (hc2 : c2 < es.length)
    (hlt : c1 < c2) (hclose : c2 - c1 < w) :
    energyAt es c1 = energyAt es c2 := by
  have hA : energyAt es c2 ≤ energyAt es c1 :=
    isPeak_le es w c1 c2 h1 (by omega) (by omega) (by omega)
  have hB : energyAt es c1 ≤ energyAt es c2 :=
    isPeak_le es w c2 c1 h2 (by omega) (by omega) (by omega)
  exact le_antisymm hB hA

/-- C2 amended: the beat times produced by the detection loop are strictly
increasing (hence non-decreasing), and any two adjacent beats either lie at
least `int(minInterval/0.05)` chunks apart or sit on chunks with exactly
equal energies.  The asymmetric scan window (`min(len, i+W)` exclusive)
lets equal-energy ties survive closer than the configured minimum
interval, so the claim's unconditional gap bound does not hold. -/
theorem detect_beats_nms_amended (es : List ℚ) (minInterval : ℚ) :
    List.Chain' (· < ·) (beatTimesOf es minInterval) ∧
    List.Chain' (fun c1 c2 => minIntervalChunks minInterval ≤ c2 - c1 ∨
      energyAt es c1 = energyAt es c2) (beatChunksOf es minInterval) := by
  have hpw : (beatChunksOf es minInterval).Pairwise (· < ·) :=
    (List.pairwise_lt_range es.length).filter _
  have hmem : ∀ c ∈ beatChunksOf es minInterval,
      c < es.length ∧ isPeak es (minIntervalChunks minInterval) c = true := by
    intro c hc
    have h := List.mem_filter.mp hc
    exact ⟨List.mem_range.mp h.1, h.2⟩
  constructor
  · have hmap : (beatTimesOf es minInterval).Pairwise (· < ·) := by
      unfold beatTimesOf
      refine List.Pairwise.map (fun c : ℕ => (c : ℚ) * chunkDur)
        (fun a b hab => ?_) hpw
      have hq : (a : ℚ) < b := by exact_mod_cast hab
      exact mul_lt_mul_of_pos_right hq (by norm_num [chunkDur] : (0:ℚ) < chunkDur)
    exact hmap.chain'
  · refine (hpw.imp_of_mem ?_).chain'
    intro a b ha hb hab
    by_cases hw : minIntervalChunks minInterval ≤ b - a
    · exact Or.inl hw
    · exact Or.inr (close_peaks_eq_energy es _ a b (hmem a ha).2 (hmem b hb).2
        (hmem a ha).1 (hmem b hb).1 hab (by omega))

/-- The first component of `detect_beats`' non-exception return value is
always the detected beat-time list, whichever tempo branch runs. -/
theorem detectBeatsResult_fst (es : List ℚ) (mi : ℚ) :
    (detectBeatsResult es mi).1 = beatTimesOf es mi := by
  by_cases h : 1 < (beatTimesOf es mi).length <;> simp [detectBeatsResult, h]

/-- C2 counterexample: on the chunk energies `[0, 0, 2, 2]` (adaptive
threshold `mean + 0.5*std = 1.5`) with the default minimum interval 0.3 s,
`detect_beats` returns the two beats `0.10 s` and `0.15 s`, only `0.05 s`
apart — the claimed minimum-gap invariant fails. -/
theorem detect_beats_min_gap_cex :
    (detectBeatsResult [0, 0, 2, 2] (3/10)).1 = [1/10, 3/20] ∧
    (3/20 : ℚ) - 1/10 < 3/10 := by
  have hW : minIntervalChunks (3/10) = 6 := by
    have h6 : (⌊(3/10 : ℚ) / chunkDur⌋ : ℤ) = 6 := by norm_num [chunkDur]
    simp [minIntervalChunks, h6]
  have hm : meanQ [0, 0, 2, 2] = 1 := by norm_num [meanQ]
  have hv : varQ [0, 0, 2, 2] = 1 := by norm_num [varQ, hm]
  constructor
  · rw [detectBeatsResult_fst]
    simp only [beatTimesOf, beatChunksOf, hW, List.length_cons, List.length_nil]
    simp only [List.range_succ, List.range_zero, List.nil_append,
      List.cons_append, List.filter, isPeak, aboveThreshold, hm, hv, energyAt]
    norm_num [List.range_succ, List.all, chunkDur]
  · norm_num

/-- C5 counterexample: on constant chunk energies `[1, 1, 1, 1]` no chunk
exceeds the adaptive threshold, so peak detection finds zero beats; yet
`detect_beats` (no exception is raised) returns that empty list, not the
0.5 s fallback grid across the track's duration (here 0.2 s, whose grid is
`[0]`). -/
theorem detect_beats_zero_beats_cex :
    (detectBeatsResult [1, 1, 1, 1] (3/10)).1 = [] ∧
    detectBeatsFallback (1/5) = ([0], 120) ∧
    (detectBeatsResult [1, 1, 1, 1] (3/10)).1 ≠ (detectBeatsFallback (1/5)).1 := by
  have hm : meanQ [1, 1, 1, 1] = 1 := by norm_num [meanQ]
  have hts : (detectBeatsResult [1, 1, 1, 1] (3/10)).1 = [] := by
    rw [detectBeatsResult_fst]
    simp only [beatTimesOf, beatChunksOf, List.length_cons, List.length_nil]
    simp only [List.range_succ, List.range_zero, List.nil_append,
      List.cons_append, List.filter, isPeak, aboveThreshold, hm, energyAt]
    norm_num
  have hfb : detectBeatsFallback (1/5) = ([0], 120) := by
    have h1 : (⌈(1/5 : ℚ) / (1/2)⌉).toNat = 1 := by
      have hc : (⌈(1/5 : ℚ) / (1/2)⌉ : ℤ) = 1 := by
        rw [Int.ceil_eq_iff]
        norm_num
      rw [hc]; rfl
    simp only [detectBeatsFallback, arangeQ, h1, List.range_succ,
      List.range_zero, List.nil_append, List.map_cons, List.map_nil]
    norm_num
  refine ⟨hts, hfb, by rw [hts, hfb]; decide⟩

/-- C5 amended: when peak detection finds zero or one beats and no
exception occurs, `detect_beats` returns exactly those detected beats
(possibly the empty list) with tempo 120.0; the 0.5 s fallback grid is
produced only by the exception handler. -/
theorem detect_beats_few_beats_amended (es : List ℚ) (mi : ℚ)
    (h : (beatTimesOf es mi).length ≤ 1) :
    detectBeatsResult es mi = (beatTimesOf es mi, 120) := by
  simp [detectBeatsResult, show ¬ 1 < (beatTimesOf es mi).length by omega]

/-- Witness for C5's amended claim on constant energies. -/
theorem detect_beats_few_beats_amended_witness :
    detectBeatsResult [1, 1, 1, 1] (3/10) = (beatTimesOf [1, 1, 1, 1] (3/10), 120) :=
  detect_beats_few_beats_amended [1, 1, 1, 1] (3/10) (by
    have hm : meanQ [1, 1, 1, 1] = 1 := by norm_num [meanQ]
    simp only [beatTimesOf, beatChunksOf, List.length_cons, List.length_nil]
    simp only [List.range_succ, List.range_zero, List.nil_append,
      List.cons_append, List.filter, isPeak, aboveThreshold, hm, energyAt]
    norm_num)

/-! ## Executor (`src/agents/executor.py`)

Only durations matter to claim C1; each moviepy operation is modelled by
its effect on the clip duration.  `FadeIn`/`FadeOut`/`with_audio`
(lines 182-188) do not change the duration, and they run *after* the
reconciliation block, which itself runs after concatenation — the
composition order below mirrors lines 158-188. -/

/-- `subclipped(0, tEnd)` duration of a source of duration `total`
(the code only calls it with `tEnd ≤ total`, where it equals `tEnd`). -/
def subclipDur (total tEnd : ℚ) : ℚ := min tEnd total

/-- `concatenate_videoclips`: clips play in sequence. -/
def concatDuration (clipDurations : List ℚ) : ℚ := clipDurations.sum

/-- `num_loops = int(np.ceil(audio_duration / video_duration))`. -/
def loopCount (audioD videoD : ℚ) : ℤ := ⌈audioD / videoD⌉

/-- Duration of `concatenate_videoclips([final_video] * num_loops)`. -/
def loopedDuration (audioD videoD : ℚ) : ℚ := (loopCount audioD videoD : ℚ) * videoD

/-- The CRITICAL-FIX reconciliation block (lines 166-178): leave the video
alone when within 0.1 s of the audio; loop-then-trim when shorter; trim
when longer. -/
def reconcileDuration (audioD videoD : ℚ) : ℚ :=
  if 1/10 < |videoD - audioD| then
    if videoD < audioD then subclipDur (loopedDuration audioD videoD) audioD
    else subclipDur videoD audioD
  else videoD

/-- `FadeIn`/`FadeOut` on the final video preserve its duration. -/
def applyFadesDuration (fadeDur d : ℚ) : ℚ := d

/-- Duration of the rendered video: the audio is
`audio_full.subclipped(segment.start, segment.end)` (duration
`end - start`), the clips are concatenated, reconciled against the audio
duration, and finally faded. -/
def finalVideoDuration (fadeDur segStart segEnd : ℚ)
    (clipDurations : List ℚ) : ℚ :=
  applyFadesDuration fadeDur
    (reconcileDuration (segEnd - segStart) (concatDuration clipDurations))

/-- C1: whenever at least one clip rendered (all with positive duration),
the final video duration is within 0.1 s of the plan's audio segment
duration `segment.end - segment.start`; when the concatenation is shorter,
looping it `⌈audio/video⌉` times covers the audio duration, so the
subsequent trim to the exact audio length is valid; the reconciliation
output feeds the duration-preserving fade step. -/
theorem executor_duration_reconciliation (fadeDur segStart segEnd : ℚ)
    (clips : List ℚ) (hne : clips ≠ []) (hpos : ∀ c ∈ clips, 0 < c) :
    |finalVideoDuration fadeDur segStart segEnd clips - (segEnd - segStart)| ≤ 1/10 ∧
    (concatDuration clips < segEnd - segStart →
      segEnd - segStart ≤
        loopedDuration (segEnd - segStart) (concatDuration clips)) := by
  have hv : 0 < concatDuration clips := List.sum_pos clips hpos hne
  set a := segEnd - segStart with ha
  set v := concatDuration clips with hvdef
  have hloop : v < a → a ≤ loopedDuration a v := by
    intro _
    have hceil : a / v ≤ ((⌈a / v⌉ : ℤ) : ℚ) := Int.le_ceil _
    have : a / v * v ≤ ((⌈a / v⌉ : ℤ) : ℚ) * v :=
      mul_le_mul_of_nonneg_right hceil (le_of_lt hv)
    calc a = a / v * v := by field_simp
    _ ≤ ((⌈a / v⌉ : ℤ) : ℚ) * v := this
    _ = loopedDuration a v := rfl
  refine ⟨?_, hloop⟩
  unfold finalVideoDuration applyFadesDuration reconcileDuration
  split_ifs with h1 h2
  · rw [show subclipDur (loopedDuration a v) a = a from
      min_eq_left (hloop h2)]
    simp
  · have hva : a ≤ v := le_of_not_lt h2
    rw [show subclipDur v a = a from min_eq_left hva]
    simp
  · exact le_of_not_lt h1

/-- Witness for C1: two clips of 2 s and 3 s against a 12 s audio
segment. -/
theorem executor_duration_reconciliation_witness :
    |finalVideoDuration (1/2) 0 12 [2, 3] - ((12 : ℚ) - 0)| ≤ 1/10 ∧
    (concatDuration [2, 3] < (12 : ℚ) - 0 →
      (12 : ℚ) - 0 ≤ loopedDuration ((12 : ℚ) - 0) (concatDuration [2, 3])) :=
  executor_duration_reconciliation (1/2) 0 12 [2, 3] (by simp)
    (by intro c hc; rcases List.mem_cons.mp hc with rfl | hc
        · norm_num
        · rcases List.mem_cons.mp hc with rfl | hc
          · norm_num
          · simp at hc)

/-! ## Audio intensity profile (`get_audio_intensity_segments`,
`src/video_making/beat_detector.py` lines 111-155) -/

/-- Python slice `audio_array[int(t1*fps) : min(int(t2*fps), len)]`
(lines 129-135; the code clamps the end index to the array length). -/
def sliceSamples (audio : List ℚ) (fps : ℕ) (t1 t2 : ℚ) : List ℚ :=
  let s1 := (⌊t1 * (fps : ℚ)⌋).toNat
  let s2 := min (⌊t2 * (fps : ℚ)⌋).toNat audio.length
  (audio.drop s1).take (s2 - s1)

/-- Raw per-interval RMS energies (lines 127-141).  `sq` stands for
`np.sqrt` restricted to the nonnegative mean squares; the claims depend
only on `sq` mapping nonnegatives to nonnegatives, so it is a parameter. -/
def rawIntensities (sq : ℚ → ℚ) (audio : List ℚ) (fps : ℕ)
    (beats : List ℚ) : List ℚ :=
  (List.range (beats.length - 1)).map (fun i =>
    if 0 < (sliceSamples audio fps (beats.getD i 0) (beats.getD (i+1) 0)).length
    then sq (msQ (sliceSamples audio fps (beats.getD i 0) (beats.getD (i+1) 0)))
    else 0)

/-- The normalization step (lines 143-147): nonempty profiles with a
positive maximum are divided by that maximum. -/
def normalizeIntensities (raw : List ℚ) : List ℚ :=
  if raw = [] then raw
  else if 0 < maxQ raw then raw.map (fun r => r / maxQ raw) else raw

/-- `get_audio_intensity_segments` on decoded audio. -/
def getAudioIntensitySegments (sq : ℚ → ℚ) (audio : List ℚ) (fps : ℕ)
    (beats : List ℚ) : List ℚ :=
  normalizeIntensities (rawIntensities sq audio fps beats)

/-- `foldl max` dominates its seed. -/
theorem le_foldl_max (l : List ℚ) (b : ℚ) : b ≤ l.foldl max b := by
  induction l generalizing b with
  | nil => exact le_refl b
  | cons x xs ih => exact le_trans (le_max_left b x) (ih (max b x))

/-- `foldl max` dominates every list element. -/
theorem mem_le_foldl_max (l : List ℚ) (b a : ℚ) : a ∈ l → a ≤ l.foldl max b := by
  induction l generalizing b with
  | nil => intro ha; cases ha
  | cons x xs ih =>
    intro ha
    simp only [List.foldl_cons]
    rcases List.mem_cons.mp ha with rfl | h
    · exact le_trans (le_max_right b a) (le_foldl_max xs (max b a))
    · exact ih (max b x) h

/-- `foldl max` is the seed or one of the elements. -/
theorem foldl_max_mem (l : List ℚ) (b : ℚ) :
    l.foldl max b = b ∨ l.foldl max b ∈ l := by
  induction l generalizing b with
  | nil => exact Or.inl rfl
  | cons x xs ih =>
    rw [List.foldl_cons]
    rcases ih (max b x) with h | h
    · rcases max_choice b x with hm | hm
      · exact Or.inl (by rw [h, hm])
      · exact Or.inr (by rw [h, hm]; exact List.mem_cons_self x xs)
    · exact Or.inr (List.mem_cons_of_mem x h)

/-- A nonempty list contains its `maxQ`. -/
theorem maxQ_mem (xs : List ℚ) (h : xs ≠ []) : maxQ xs ∈ xs := by
  match xs with
  | [] => exact absurd rfl h
  | x :: l =>
    rcases foldl_max_mem l x with hx | hx
    · rw [maxQ, hx]; exact List.mem_cons_self x l
    · exact List.mem_cons_of_mem x hx

/-- Every element is at most `maxQ`. -/
theorem le_maxQ (xs : List ℚ) (a : ℚ) (ha : a ∈ xs) : a ≤ maxQ xs := by
  match xs with
  | [] => cases ha
  | x :: l =>
    rcases List.mem_cons.mp ha with rfl | h
    · exact le_foldl_max l a
    · exact mem_le_foldl_max l x a h

/-- Mean squares are nonnegative. -/
theorem msQ_nonneg (xs : List ℚ) : 0 ≤ msQ xs := by
  unfold msQ
  apply div_nonneg _ (by positivity)
  apply List.sum_nonneg
  intro x hx
  simp only [List.mem_map] at hx
  obtain ⟨e, _, rfl⟩ := hx
  positivity

/-- Raw intensities are nonnegative whenever `sq` preserves sign. -/
theorem rawIntensities_nonneg (sq : ℚ → ℚ) (audio : List ℚ) (fps : ℕ)
    (beats : List ℚ) (hsq : ∀ x, 0 ≤ x → 0 ≤ sq x) :
    ∀ r ∈ rawIntensities sq audio fps beats, 0 ≤ r := by
  intro r hr
  simp only [rawIntensities, List.mem_map] at hr
  obtain ⟨i, _, rfl⟩ := hr
  split
  · exact hsq _ (msQ_nonneg _)
  · exact le_refl 0

/-- C9: every value of the intensity profile returned by
`get_audio_intensity_segments` lies in `[0, 1]`, and the maximum equals
`1.0` whenever the result is non-empty and contains at least one positive
value (normalization by the maximum). -/
theorem intensity_profile_normalized (sq : ℚ → ℚ) (audio : List ℚ) (fps : ℕ)
    (beats : List ℚ) (hsq : ∀ x, 0 ≤ x → 0 ≤ sq x) :
    (∀ v ∈ getAudioIntensitySegments sq audio fps beats, 0 ≤ v ∧ v ≤ 1) ∧
    ((∃ v ∈ getAudioIntensitySegments sq audio fps beats, 0 < v) →
      maxQ (getAudioIntensitySegments sq audio fps beats) = 1) := by
  have hraw := rawIntensities_nonneg sq audio fps beats hsq
  set raw := rawIntensities sq audio fps beats with hrawdef
  unfold getAudioIntensitySegments normalizeIntensities
  rw [← hrawdef]
  split_ifs with h0 h1
  · rw [h0]
    exact ⟨fun v hv => absurd hv (List.not_mem_nil v),
      fun ⟨v, hv, _⟩ => absurd hv (List.not_mem_nil v)⟩
  · constructor
    · intro v hv
      simp only [List.mem_map] at hv
      obtain ⟨r, hrmem, rfl⟩ := hv
      exact ⟨div_nonneg (hraw r hrmem) (le_of_lt h1),
        (div_le_one h1).mpr (le_maxQ raw r hrmem)⟩
    · intro _
      have hmem1 : (1:ℚ) ∈ raw.map (fun r => r / maxQ raw) := by
        refine List.mem_map.mpr ⟨maxQ raw, maxQ_mem raw h0, ?_⟩
        field_simp
      have hne : raw.map (fun r => r / maxQ raw) ≠ [] := by
        intro hcon
        rw [hcon] at hmem1
        exact absurd hmem1 (List.not_mem_nil 1)
      have hup : ∀ w ∈ raw.map (fun r => r / maxQ raw), w ≤ 1 := by
        intro w hw
        simp only [List.mem_map] at hw
        obtain ⟨r, hrmem, rfl⟩ := hw
        exact (div_le_one h1).mpr (le_maxQ raw r hrmem)
      exact le_antisymm (hup _ (maxQ_mem _ hne)) (le_maxQ _ _ hmem1)
  · constructor
    · intro v hv
      exact ⟨hraw v hv,
        le_trans (le_maxQ raw v hv) (le_trans (le_of_not_lt h1) zero_le_one)⟩
    · rintro ⟨v, hv, hvpos⟩
      exact absurd (lt_of_lt_of_le hvpos (le_maxQ raw v hv)) h1

/-- Witness for C9 at a concrete decoded track (`sq = id`, which maps
nonnegatives to nonnegatives). -/
theorem intensity_profile_normalized_witness :
    (∀ v ∈ getAudioIntensitySegments id [1, 0, 1, 0] 2 [0, 1, 2], 0 ≤ v ∧ v ≤ 1) ∧
    ((∃ v ∈ getAudioIntensitySegments id [1, 0, 1, 0] 2 [0, 1, 2], 0 < v) →
      maxQ (getAudioIntensitySegments id [1, 0, 1, 0] 2 [0, 1, 2]) = 1) :=
  intensity_profile_normalized id [1, 0, 1, 0] 2 [0, 1, 2] (fun _ hx => hx)

/-! ## Segment selector: the pattern-scored selection loops
(`find_best_segment`, lines 61-133)

All five pattern branches share one loop shape: scan
`start_window in range(len(energies) - target_windows)`, keep the first
placement that strictly improves `best_score` (initialised to `-1`), and
record that placement's `calm_end`.  Fractional slice indices such as
`int(target_windows * 0.4)` are modelled with exact natural division
(`tw * 2 / 5` etc.), which agrees with the float computation at the
durations the orchestrator produces. -/

/-- Selection state: `best_score`, `best_start`, `calm_end_time`. -/
structure SelSt where
  bestScore : ℚ
  bestStart : ℕ
  calmEnd : Option ℚ
deriving Repr, DecidableEq

/-- `energies[s : s + tw]`. -/
def windowAt (es : List ℚ) (s tw : ℕ) : List ℚ := (es.drop s).take tw

/-- calm-rage score (lines 70-74):
`mean(segment[int(tw*0.5):]) - mean(segment[:int(tw*0.4)])`. -/
def calmRageScore (es : List ℚ) (tw s : ℕ) : ℚ :=
  meanQ ((windowAt es s tw).drop (tw / 2)) -
    meanQ ((windowAt es s tw).take (tw * 2 / 5))

/-- calm-rage `calm_end` (line 77): `start_window + np.argmax(segment)`,
in absolute 1-second-window coordinates. -/
def calmRageCE (es : List ℚ) (tw s : ℕ) : Option ℚ :=
  some ((s : ℚ) + (argmaxIdx (windowAt es s tw) : ℚ))

/-- rage-calm score (lines 81-85). -/
def rageCalmScore (es : List ℚ) (tw s : ℕ) : ℚ :=
  meanQ ((windowAt es s tw).take (tw * 2 / 5)) -
    meanQ ((windowAt es s tw).drop (tw * 3 / 5))

/-- calm-rage-calm score (lines 92-97). -/
def midPeakScore (es : List ℚ) (tw s : ℕ) : ℚ :=
  meanQ (((windowAt es s tw).drop (tw * 2 / 5)).take (tw * 3 / 5 - tw * 2 / 5)) -
    (meanQ ((windowAt es s tw).take (tw * 3 / 10)) +
      meanQ ((windowAt es s tw).drop (tw * 7 / 10))) / 2

/-- mean-energy score of the double-rage / double-calm branches. -/
def meanWindowScore (es : List ℚ) (tw s : ℕ) : ℚ := meanQ (windowAt es s tw)

/-- One iteration: `if score > best_score: update best and calm_end`. -/
def selStep (score : ℕ → ℚ) (ce : ℕ → Option ℚ) (st : SelSt) (s : ℕ) : SelSt :=
  if st.bestScore < score s then ⟨score s, s, ce s⟩ else st

/-- The whole placement scan. -/
def selLoop (score : ℕ → ℚ) (ce : ℕ → Option ℚ) (numPlacements : ℕ)
    (init : SelSt) : SelSt :=
  (List.range numPlacements).foldl (selStep score ce) init

/-- Python's non-overlapping substring count (`str.count`) over character
lists: scan left to right; after a match, `skip` suppresses the next
`sub.length - 1` positions so matches do not overlap. -/
def countOccAux (sub : List Char) : List Char → ℕ → ℕ
  | [], _ => 0
  | c :: rest, skip =>
    if 0 < skip then countOccAux sub rest (skip - 1)
    else if sub.isPrefixOf (c :: rest) ∧ sub ≠ [] then
      countOccAux sub rest (sub.length - 1) + 1
    else countOccAux sub rest 0

/-- `pattern.count(sub)`. -/
def strCount (s sub : String) : ℕ := countOccAux sub.data s.data 0

/-- Python's `sub in s` for nonempty `sub` (equivalent to a positive
non-overlapping count). -/
def strHasSub (s sub : String) : Bool := decide (1 ≤ strCount s sub)

/-- The branch dispatch of `find_best_segment` (lines 68-129) on the
analysis path (`total_duration > target_duration`), reduced to the final
selection state.  `target_windows = int(target_duration)`; the loop bound
`len(energies) - target_windows` collapses to zero placements when the
energy list is too short, exactly like Python's empty `range`. -/
def selectStateFor (es : List ℚ) (td : ℚ) (pattern : String) : SelSt :=
  let tw := (⌊td⌋).toNat
  let n := es.length - tw
  let init : SelSt := ⟨-1, 0, some (td * (3/5))⟩
  if pattern = "calm-rage" then
    selLoop (calmRageScore es tw) (calmRageCE es tw) n init
  else if pattern = "rage-calm" then
    selLoop (rageCalmScore es tw) (fun s => some ((s : ℚ) + ((tw * 7 / 10 : ℕ) : ℚ))) n init
  else if pattern = "calm-rage-calm" then
    selLoop (midPeakScore es tw) (fun s => some ((s : ℚ) + ((tw * 2 / 5 : ℕ) : ℚ))) n init
  else if strHasSub pattern "rage" ∧ 2 ≤ strCount pattern "rage" then
    selLoop (meanWindowScore es tw) (fun _ => none) n init
  else if strHasSub pattern "calm" ∧ 2 ≤ strCount pattern "calm" then
    selLoop (fun s => -(meanWindowScore es tw s)) (fun _ => none) n init
  else
    selLoop (calmRageScore es tw) (calmRageCE es tw) n init

/-- The value `find_best_segment` returns on the analysis path
(lines 131-142): `start_time = best_start`, `end_time = start + target`,
`duration = target`, `calm_end` from the selection state. -/
def findBestSegmentScored (es : List ℚ) (td : ℚ) (pattern : String) : SegResult :=
  let st := selectStateFor es td pattern
  ⟨(st.bestStart : ℚ), (st.bestStart : ℚ) + td, td, st.calmEnd⟩

/-- The scan never decreases `best_score`. -/
theorem selFold_ge (score : ℕ → ℚ) (ce : ℕ → Option ℚ) (l : List ℕ)
    (init : SelSt) :
    init.bestScore ≤ (l.foldl (selStep score ce) init).bestScore := by
  induction l generalizing init with
  | nil => exact le_refl _
  | cons x xs ih =>
    rw [List.foldl_cons]
    by_cases h : init.bestScore < score x
    · have hstep : selStep score ce init x = ⟨score x, x, ce x⟩ := by
        simp [selStep, h]
      rw [hstep]
      exact le_trans (le_of_lt h) (ih _)
    · have hstep : selStep score ce init x = init := by simp [selStep, h]
      rw [hstep]
      exact ih init

/-- After the scan, `best_score` dominates every scanned placement. -/
theorem selFold_max (score : ℕ → ℚ) (ce : ℕ → Option ℚ) (l : List ℕ)
    (init : SelSt) :
    ∀ s ∈ l, score s ≤ (l.foldl (selStep score ce) init).bestScore := by
  induction l generalizing init with
  | nil => intro s hs; cases hs
  | cons x xs ih =>
    intro s hs
    rw [List.foldl_cons]
    rcases List.mem_cons.mp hs with rfl | h
    · have h1 : score s ≤ (selStep score ce init s).bestScore := by
        unfold selStep
        split_ifs with hlt
        · exact le_refl _
        · exact le_of_not_lt hlt
      exact le_trans h1 (selFold_ge score ce xs _)
    · exact ih _ s h

/-- The scan result is either the untouched initial state or the record of
one scanned placement. -/
theorem selFold_cases (score : ℕ → ℚ) (ce : ℕ → Option ℚ) (l : List ℕ)
    (init : SelSt) :
    l.foldl (selStep score ce) init = init ∨
    ∃ s ∈ l, l.foldl (selStep score ce) init = ⟨score s, s, ce s⟩ := by
  induction l generalizing init with
  | nil => exact Or.inl rfl
  | cons x xs ih =>
    rw [List.foldl_cons]
    by_cases h : init.bestScore < score x
    · have hstep : selStep score ce init x = ⟨score x, x, ce x⟩ := by
        simp [selStep, h]
      rw [hstep]
      rcases ih ⟨score x, x, ce x⟩ with h2 | ⟨s, hs, h2⟩
      · exact Or.inr ⟨x, List.mem_cons_self x xs, h2⟩
      · exact Or.inr ⟨s, List.mem_cons_of_mem x hs, h2⟩
    · have hstep : selStep score ce init x = init := by simp [selStep, h]
      rw [hstep]
      rcases ih init with h2 | ⟨s, hs, h2⟩
      · exact Or.inl h2
      · exact Or.inr ⟨s, List.mem_cons_of_mem x hs, h2⟩

/-- If some placement strictly beats the initial score, the scan settles on
a genuine placement record. -/
theorem selFold_updated (score : ℕ → ℚ) (ce : ℕ → Option ℚ) (l : List ℕ)
    (init : SelSt) (h : ∃ s ∈ l, init.bestScore < score s) :
    ∃ s ∈ l, l.foldl (selStep score ce) init = ⟨score s, s, ce s⟩ := by
  rcases selFold_cases score ce l init with heq | hex
  · obtain ⟨s, hs, hlt⟩ := h
    have hmax := selFold_max score ce l init s hs
    rw [heq] at hmax
    exact absurd hlt (not_lt.mpr hmax)
  · exact hex

/-- The `argmax` scan counter advances once per element. -/
theorem argmaxFold_counter (l : List ℚ) (st : ℕ × ℚ × ℕ) :
    (l.foldl argmaxStep st).2.2 = st.2.2 + l.length := by
  induction l generalizing st with
  | nil => simp
  | cons x xs ih =>
    rw [List.foldl_cons]
    have hstep : (argmaxStep st x).2.2 = st.2.2 + 1 := by
      unfold argmaxStep
      split_ifs <;> rfl
    rw [ih (argmaxStep st x), hstep, List.length_cons]
    omega

/-- The `argmax` scan's best index stays below its counter (or at its
initial value). -/
theorem argmaxFold_inv (l : List ℚ) (st : ℕ × ℚ × ℕ)
    (h : st.1 < st.2.2 ∨ st.1 = 0) :
    (l.foldl argmaxStep st).1 < (l.foldl argmaxStep st).2.2 ∨
      (l.foldl argmaxStep st).1 = 0 := by
  induction l generalizing st with
  | nil => exact h
  | cons x xs ih =>
    rw [List.foldl_cons]
    apply ih
    unfold argmaxStep
    split_ifs with hlt
    · exact Or.inl (Nat.lt_succ_self _)
    · rcases h with h | h
      · exact Or.inl (Nat.lt_succ_of_lt h)
      · exact Or.inr h

/-- `np.argmax` of a nonempty list is a valid index. -/
theorem argmaxIdx_lt_length (xs : List ℚ) (h : xs ≠ []) :
    argmaxIdx xs < xs.length := by
  have hc := argmaxFold_counter xs (0, xs.headD 0, 0)
  have hi := argmaxFold_inv xs (0, xs.headD 0, 0) (Or.inr rfl)
  have hlen : 0 < xs.length := List.length_pos.mpr h
  unfold argmaxIdx
  rcases hi with hi | hi
  · rw [hc] at hi
    simpa using hi
  · rw [hi]
    exact hlen

/-- The dispatch picks the calm-rage loop for pattern `"calm-rage"`. -/
theorem selectStateFor_calm_rage (es : List ℚ) (td : ℚ) :
    selectStateFor es td "calm-rage" =
      selLoop (calmRageScore es (⌊td⌋).toNat) (calmRageCE es (⌊td⌋).toNat)
        (es.length - (⌊td⌋).toNat) ⟨-1, 0, some (td * (3/5))⟩ := by
  simp [selectStateFor]

/-- `int(12.0) = 12`. -/
theorem floor12 : ((⌊(12:ℚ)⌋).toNat) = 12 := by
  have h : (⌊(12:ℚ)⌋ : ℤ) = 12 := by norm_num
  rw [h]
  rfl

/-- C6 amended: for a 30 s track (30 one-second energy windows), target
12 s, pattern `"calm-rage"`, `find_best_segment` returns a window of
duration exactly 12 whose start maximizes
`mean(segment[6:12]) - mean(segment[:4])` over the scanned placements (the
difference need not be positive, so the back half need not strictly exceed
the front 40%), and whose `calm_end` is `best_start + argmax offset` in
absolute track coordinates: it lies in `[start, start + 11]` — inside the
chosen window, not in general inside `[0, 12]`. -/
theorem find_best_segment_calm_rage_amended (es : List ℚ) (h : es.length = 30) :
    (findBestSegmentScored es 12 "calm-rage").endTime -
        (findBestSegmentScored es 12 "calm-rage").startTime = 12 ∧
    (∃ ce, (findBestSegmentScored es 12 "calm-rage").calmEnd = some ce ∧
      (findBestSegmentScored es 12 "calm-rage").startTime ≤ ce ∧
      ce ≤ (findBestSegmentScored es 12 "calm-rage").startTime + 11) ∧
    (∀ s ∈ List.range 18, calmRageScore es 12 s ≤
      (selectStateFor es 12 "calm-rage").bestScore) := by
  have hsel : selectStateFor es 12 "calm-rage" =
      selLoop (calmRageScore es 12) (calmRageCE es 12) 18 ⟨-1, 0, some (12 * (3/5))⟩ := by
    rw [selectStateFor_calm_rage, floor12, h]
  have hfst : findBestSegmentScored es 12 "calm-rage" =
      ⟨((selectStateFor es 12 "calm-rage").bestStart : ℚ),
        ((selectStateFor es 12 "calm-rage").bestStart : ℚ) + 12, 12,
        (selectStateFor es 12 "calm-rage").calmEnd⟩ := rfl
  refine ⟨by rw [hfst]; ring, ?_, ?_⟩
  · rw [hfst]
    rcases selFold_cases (calmRageScore es 12) (calmRageCE es 12)
        (List.range 18) ⟨-1, 0, some (12 * (3/5))⟩ with hc | ⟨s, hs, hc⟩
    · rw [hsel]
      unfold selLoop
      rw [hc]
      exact ⟨12 * (3/5), rfl, by norm_num, by norm_num⟩
    · rw [hsel]
      unfold selLoop
      rw [hc]
      have hslt : s < 18 := List.mem_range.mp hs
      have hwlen : (windowAt es s 12).length = 12 := by
        simp only [windowAt, List.length_take, List.length_drop, h]
        omega
      have hargmax : argmaxIdx (windowAt es s 12) < 12 := by
        have := argmaxIdx_lt_length (windowAt es s 12)
          (by intro hcon; rw [hcon] at hwlen; simp at hwlen)
        omega
      refine ⟨(s : ℚ) + (argmaxIdx (windowAt es s 12) : ℚ), rfl, ?_, ?_⟩
      · have hnn : (0:ℚ) ≤ (argmaxIdx (windowAt es s 12) : ℚ) := by positivity
        linarith
      · have hle : (argmaxIdx (windowAt es s 12) : ℚ) ≤ 11 := by
          exact_mod_cast Nat.lt_succ_iff.mp
            (by omega : argmaxIdx (windowAt es s 12) < 12)
        linarith
  · intro s hs
    rw [hsel]
    exact selFold_max _ _ _ _ s hs

/-- Witness for C6's amended claim on a silent 30 s track. -/
theorem find_best_segment_calm_rage_amended_witness :
    (findBestSegmentScored (List.replicate 30 0) 12 "calm-rage").endTime -
        (findBestSegmentScored (List.replicate 30 0) 12 "calm-rage").startTime = 12 ∧
    (∃ ce, (findBestSegmentScored (List.replicate 30 0) 12 "calm-rage").calmEnd = some ce ∧
      (findBestSegmentScored (List.replicate 30 0) 12 "calm-rage").startTime ≤ ce ∧
      ce ≤ (findBestSegmentScored (List.replicate 30 0) 12 "calm-rage").startTime + 11) ∧
    (∀ s ∈ List.range 18, calmRageScore (List.replicate 30 0) 12 s ≤
      (selectStateFor (List.replicate 30 0) 12 "calm-rage").bestScore) :=
  find_best_segment_calm_rage_amended (List.replicate 30 0) (by simp)

/-- A 30-window energy track whose best calm-rage placement starts at
window 7 with its loudest window at absolute position 18:
`energies[i] = (100 - i)/100` except for a bump `energies[18] = 0.94`. -/
def cexEnergies : List ℚ :=
  [1, 99/100, 98/100, 97/100, 96/100, 95/100, 94/100, 93/100, 92/100, 91/100,
   90/100, 89/100, 88/100, 87/100, 86/100, 85/100, 84/100, 83/100, 94/100,
   81/100, 80/100, 79/100, 78/100, 77/100, 76/100, 75/100, 74/100, 73/100,
   72/100, 71/100]

set_option maxHeartbeats 2000000 in
/-- C6 counterexample: on `cexEnergies` (30 s track, target 12 s, pattern
calm-rage) the selector returns the window `[7, 19]` with
`calm_end = 18 ∉ [0, 12]`, and the window's back half has *lower* mean
energy than its front 40% (every placement's score is negative here). -/
theorem find_best_segment_calm_rage_cex :
    cexEnergies.length = 30 ∧
    findBestSegmentScored cexEnergies 12 "calm-rage" = ⟨7, 19, 12, some 18⟩ ∧
    ¬ ((18:ℚ) ≤ 12) ∧
    meanQ ((windowAt cexEnergies 7 12).drop 6) <
      meanQ ((windowAt cexEnergies 7 12).take 4) := by
  refine ⟨by simp [cexEnergies], ?_, by norm_num, ?_⟩
  · have hsel : selectStateFor cexEnergies 12 "calm-rage" =
        selLoop (calmRageScore cexEnergies 12) (calmRageCE cexEnergies 12) 18
          ⟨-1, 0, some (12 * (3/5))⟩ := by
      rw [selectStateFor_calm_rage, floor12]
      norm_num [cexEnergies]
    show (⟨((selectStateFor cexEnergies 12 "calm-rage").bestStart : ℚ),
        ((selectStateFor cexEnergies 12 "calm-rage").bestStart : ℚ) + 12, 12,
        (selectStateFor cexEnergies 12 "calm-rage").calmEnd⟩ : SegResult) =
      ⟨7, 19, 12, some 18⟩
    rw [hsel]
    norm_num [selLoop, List.range_succ, selStep, calmRageScore, calmRageCE,
      windowAt, meanQ, cexEnergies, argmaxIdx, argmaxStep]
  · norm_num [windowAt, meanQ, cexEnergies]

/-- The dispatch sends `"calm-calm-rage"` (rage-count 1, calm-count 2) to
the low-energy monotone branch with score `-mean(window)` and
`calm_end = None` on update. -/
theorem selectStateFor_calm_calm_rage (es : List ℚ) (td : ℚ) :
    selectStateFor es td "calm-calm-rage" =
      selLoop (fun s => -(meanWindowScore es (⌊td⌋).toNat s)) (fun _ => none)
        (es.length - (⌊td⌋).toNat) ⟨-1, 0, some (td * (3/5))⟩ := by
  have h1 : strCount "calm-calm-rage" "rage" = 1 := by decide
  have h2 : strCount "calm-calm-rage" "calm" = 2 := by decide
  simp [selectStateFor, strHasSub, h1, h2]

/-- C10: for pattern `"calm-calm-rage"`, `find_best_segment` dispatches to
the low-energy branch and returns `calm_end = None` whenever at least one
placement is scored (its negated mean beats the initial `-1`); since the
literal substring `"rage"` occurs in the pattern, the orchestrator then
types every beat interval by the rage-dominant rule — `"rage"` exactly
when the interval intensity exceeds 0.5, otherwise `"mixed"` — so no
interval is ever typed `"calm"`. -/
theorem pattern_calm_calm_rage_behaviour (es : List ℚ) (td t intensity : ℚ)
    (h : ∃ s ∈ List.range (es.length - (⌊td⌋).toNat),
      (-1 : ℚ) < -(meanWindowScore es (⌊td⌋).toNat s)) :
    (findBestSegmentScored es td "calm-calm-rage").calmEnd = none ∧
    clipTypeFor (strHasSub "calm-calm-rage" "rage") none t intensity ≠ "calm" ∧
    (clipTypeFor (strHasSub "calm-calm-rage" "rage") none t intensity = "rage" ↔
      1/2 < intensity) := by
  have hhas : strHasSub "calm-calm-rage" "rage" = true := by decide
  refine ⟨?_, ?_, ?_⟩
  · obtain ⟨s, hs, heq⟩ := selFold_updated
      (fun s => -(meanWindowScore es (⌊td⌋).toNat s)) (fun _ => none)
      (List.range (es.length - (⌊td⌋).toNat)) ⟨-1, 0, some (td * (3/5))⟩
      (by simpa using h)
    show (selectStateFor es td "calm-calm-rage").calmEnd = none
    rw [selectStateFor_calm_calm_rage]
    unfold selLoop
    rw [heq]
  · have hred : clipTypeFor true none t intensity =
        if 1/2 < intensity then "rage" else "mixed" := by
      simp [clipTypeFor]
    rw [hhas, hred]
    split_ifs <;> decide
  · have hred : clipTypeFor true none t intensity =
        if 1/2 < intensity then "rage" else "mixed" := by
      simp [clipTypeFor]
    rw [hhas, hred]
    split_ifs with hint
    · exact iff_of_true rfl hint
    · exact iff_of_false (by decide) hint

/-- Witness for C10 on a silent two-window track with target 1 s. -/
theorem pattern_calm_calm_rage_behaviour_witness :
    (findBestSegmentScored [0, 0] 1 "calm-calm-rage").calmEnd = none ∧
    clipTypeFor (strHasSub "calm-calm-rage" "rage") none 0 (3/4) ≠ "calm" ∧
    (clipTypeFor (strHasSub "calm-calm-rage" "rage") none 0 (3/4) = "rage" ↔
      1/2 < (3/4 : ℚ)) :=
  pattern_calm_calm_rage_behaviour [0, 0] 1 0 (3/4) (by
    have hf : ((⌊(1:ℚ)⌋).toNat) = 1 := by
      have h1 : (⌊(1:ℚ)⌋ : ℤ) = 1 := by norm_num
      rw [h1]; rfl
    refine ⟨0, ?_, ?_⟩
    · simp [hf]
    · norm_num [meanWindowScore, windowAt, meanQ, hf])
